import Mathlib

/-!
# Verification of OS161 kernel subsystems

Shallow embedding of the process / file-table / VM subsystems of the
namimaleki/OS161 kernel, together with proofs and refutations of the
spec claims about them.  Every definition mirrors the corresponding C
function; external collaborators (VFS, copyin/copyout, the allocator
oracle) are passed in as explicit data.
-/

namespace OS161

/-! ## Error codes (kern/errno.h, base OS/161 distribution) -/

def ENOMEM : Nat := 4
def EFAULT : Nat := 7
def ENAMETOOLONG : Nat := 8
def EINVAL : Nat := 9
def ENPROC : Nat := 13
def E2BIG : Nat := 15
def ESRCH : Nat := 16
def ECHILD : Nat := 17
def EMFILE : Nat := 27
def EBADF : Nat := 29
def ESPIPE : Nat := 48

/-! ## Kernel-wide limits (kern/limits.h) -/

def OPEN_MAX : Nat := 128
def PID_MIN : Nat := 2
def PID_MAX : Nat := 32767
def PAGE_SIZE : Nat := 4096
def ARG_MAX : Nat := 65536

/-- Pointwise update of a function table. -/
def upd {β : Type} (f : Nat → β) (i : Nat) (v : β) : Nat → β :=
  fun j => if j = i then v else f j

theorem upd_same {β : Type} (f : Nat → β) (i : Nat) (v : β) : upd f i v i = v := by
  simp [upd]

theorem upd_other {β : Type} (f : Nat → β) (i j : Nat) (v : β) (h : j ≠ i) :
    upd f i v j = f j := by
  simp [upd, h]

/-! ## Open-file objects and the per-process file table

`struct open_file_handler` (open_file_handler.h) carries an offset, the
open flags, a vnode pointer and a reference count.  Objects live in a
heap indexed by object ids; `closes oid` counts how many times
`vfs_close` has been called on the object's vnode. -/

/-- The part of a vnode that the file syscalls consult, as oracles for
the external VFS operations: `VOP_ISSEEKABLE`, `VOP_STAT` (error code and
`st_size`), and `VOP_WRITE` (error code and remaining `uio_resid` as a
function of offset and byte count). -/
structure Vnode where
  seekable : Bool
  statErr : Nat
  size : Int
  vopWrite : Int → Nat → Nat × Nat
deriving Inhabited

/-- `struct open_file_handler`, minus the lock (locking is modelled as
atomicity of each operation). -/
structure OpenFile where
  offset : Int
  flags : Nat
  vn : Vnode
  reference_count : Nat
deriving Inhabited

/-- Heap of live open-file objects plus a per-object count of
`vfs_close` calls performed on its vnode. -/
structure ObjHeap where
  obj : Nat → Option OpenFile
  closes : Nat → Nat

/-- `open_file_decref` (open_file_handler.c): a NULL argument returns at
once; otherwise the count drops and, when it reaches zero,
`open_file_destroy` closes the vnode and frees the object. -/
def open_file_decref (h : ObjHeap) (file : Option Nat) : ObjHeap :=
  match file with
  | none => h
  | some oid =>
    match h.obj oid with
    | none => h
    | some f =>
      if f.reference_count - 1 = 0 then
        { obj := upd h.obj oid none, closes := upd h.closes oid (h.closes oid + 1) }
      else
        { obj := upd h.obj oid (some { f with reference_count := f.reference_count - 1 }),
          closes := h.closes }

/-- `open_file_incref` (open_file_handler.c). -/
def open_file_incref (h : ObjHeap) (oid : Nat) : ObjHeap :=
  match h.obj oid with
  | none => h
  | some f =>
    { h with obj := upd h.obj oid (some { f with reference_count := f.reference_count + 1 }) }

/-- A process's file table: slot index to open-file object id.  Only
indices below `OPEN_MAX` exist in the C array `files[__OPEN_MAX]`. -/
def FTable : Type := Nat → Option Nat

/-- One iteration of the cleanup loop of `destroy_file_table`
(file_table.c).  The source nulls the slot *first* and then passes the
slot's value — now NULL — to `open_file_decref`:

    ft->files[i] = NULL;
    open_file_decref(ft->files[i]);
-/
def destroy_ft_slot (s : FTable × ObjHeap) (i : Nat) : FTable × ObjHeap :=
  match s.1 i with
  | none => s
  | some _ =>
    let ft1 : FTable := upd s.1 i none
    (ft1, open_file_decref s.2 (ft1 i))

/-- `destroy_file_table` (file_table.c): runs the cleanup loop over every
slot.  (Lock destruction and the final `kfree` have no observable effect
on the object heap.) -/
def destroy_file_table (ft : FTable) (h : ObjHeap) : FTable × ObjHeap :=
  (List.range OPEN_MAX).foldl destroy_ft_slot (ft, h)

/-- A corrected cleanup iteration, written from the spec sentence
"decrements refcounts on every non-null slot": the live slot value is
passed to `open_file_decref` and the slot cleared afterwards.  Used to
contrast with `destroy_ft_slot`. -/
def destroy_ft_slot_spec (s : FTable × ObjHeap) (i : Nat) : FTable × ObjHeap :=
  match s.1 i with
  | none => s
  | some oid => (upd s.1 i none, open_file_decref s.2 (some oid))

/-- Spec-described file-table destruction (decrement the live pointer,
then clear). -/
def destroy_file_table_spec (ft : FTable) (h : ObjHeap) : FTable × ObjHeap :=
  (List.range OPEN_MAX).foldl destroy_ft_slot_spec (ft, h)

/-- `sys_close` (close_syscall.c). Result: error code, table, heap. -/
def sys_close (fd : Int) (ft : FTable) (h : ObjHeap) : Nat × FTable × ObjHeap :=
  if (OPEN_MAX : Int) ≤ fd ∨ fd < 0 then (EBADF, ft, h)
  else
    let fdn := fd.toNat
    match ft fdn with
    | none => (EBADF, ft, h)
    | some oid => (0, upd ft fdn none, open_file_decref h (some oid))

/-- `sys_dup2` (dup2_syscall.c). Result: error code, `*retval`, table,
heap. -/
def sys_dup2 (oldfd newfd : Int) (ft : FTable) (h : ObjHeap) :
    Nat × Option Int × FTable × ObjHeap :=
  if oldfd < 0 ∨ newfd < 0 ∨ (OPEN_MAX : Int) ≤ oldfd ∨ (OPEN_MAX : Int) ≤ newfd then
    (EBADF, none, ft, h)
  else if oldfd = newfd then
    (0, some newfd, ft, h)
  else
    match ft oldfd.toNat with
    | none => (EBADF, none, ft, h)
    | some old_oid =>
      match ft newfd.toNat with
      | some new_oid =>
        if new_oid = old_oid then
          (0, some newfd, ft, h)
        else
          (0, some newfd, upd (upd ft newfd.toNat none) newfd.toNat (some old_oid),
            open_file_decref (open_file_incref h old_oid) (some new_oid))
      | none =>
        (0, some newfd, upd ft newfd.toNat (some old_oid), open_file_incref h old_oid)

/-- fcntl.h access-mode constants. -/
def O_RDONLY : Nat := 0
def O_ACCMODE : Nat := 3
def O_APPEND : Nat := 32

/-- Outcome of `sys_write`, with the file-table index the routine read
recorded in `slotRead` (`none` means it returned before touching the
table). -/
structure WriteOut where
  err : Nat
  retval : Option Int
  heap : ObjHeap
  slotRead : Option Nat

/-- `sys_write` (write_syscall.c).  The descriptor validation is the
source's literal test `fd < 0 || fd > __OPEN_MAX`; when it passes, the
routine reads `ft->files[fd]` (recorded in `slotRead`; `fd = OPEN_MAX`
indexes one past the end of the C array). -/
def sys_write (fd : Int) (nbytes : Nat) (ft : FTable) (h : ObjHeap) : WriteOut :=
  if fd < 0 ∨ (OPEN_MAX : Int) < fd then ⟨EBADF, none, h, none⟩
  else
    let fdn := fd.toNat
    match ft fdn with
    | none => ⟨EBADF, none, h, some fdn⟩
    | some oid =>
      match h.obj oid with
      | none => ⟨EBADF, none, h, some fdn⟩
      | some f =>
        if f.flags % 4 = O_RDONLY then ⟨EBADF, none, h, some fdn⟩
        else
          let h1 := open_file_incref h oid
          let startOff : Int := if f.flags / O_APPEND % 2 = 1 then f.vn.size else f.offset
          if f.flags / O_APPEND % 2 = 1 ∧ f.vn.statErr ≠ 0 then
            ⟨f.vn.statErr, none, open_file_decref h1 (some oid), some fdn⟩
          else
            let wr := f.vn.vopWrite startOff nbytes
            if wr.1 ≠ 0 then
              ⟨wr.1, none, open_file_decref h1 (some oid), some fdn⟩
            else
              let newOff : Int := startOff + ((nbytes : Int) - (wr.2 : Int))
              let f2 := { f with reference_count := f.reference_count + 1, offset := newOff }
              let h2 := { h1 with obj := upd h1.obj oid (some f2) }
              ⟨0, some ((nbytes : Int) - (wr.2 : Int)), open_file_decref h2 (some oid), some fdn⟩

/-! ## sys_lseek (lseek_syscall.c) -/

/-- Tail of `sys_lseek` shared by the three whence cases: reject a
negative offset with EINVAL (offset untouched), otherwise store the new
offset in the shared object and return it.  `f` is the object as read
before the `open_file_incref` bracket; the heap `h1` holds it with the
count already bumped. -/
def lseek_finish (new_offset : Int) (oid : Nat) (f : OpenFile) (h1 : ObjHeap) :
    Nat × Option Int × ObjHeap :=
  if new_offset < 0 then (EINVAL, none, open_file_decref h1 (some oid))
  else
    (0, some new_offset, open_file_decref { h1 with obj := upd h1.obj oid (some { f with reference_count := f.reference_count + 1, offset := new_offset }) } (some oid))

/-- `sys_lseek` (lseek_syscall.c): validate the descriptor, check
seekability via `VOP_ISSEEKABLE`, dispatch on whence (SEEK_SET = 0,
SEEK_CUR = 1, SEEK_END = 2 via `VOP_STAT`), reject unknown whence with
EINVAL.  Result: error code, `*retval`, object heap. -/
def sys_lseek (fd pos whence : Int) (ft : FTable) (h : ObjHeap) :
    Nat × Option Int × ObjHeap :=
  if fd < 0 ∨ (OPEN_MAX : Int) ≤ fd then (EBADF, none, h)
  else
    match ft fd.toNat with
    | none => (EBADF, none, h)
    | some oid =>
      match h.obj oid with
      | none => (EBADF, none, h)
      | some f =>
        if f.vn.seekable = false then
          (ESPIPE, none, open_file_decref (open_file_incref h oid) (some oid))
        else if whence = 0 then
          lseek_finish pos oid f (open_file_incref h oid)
        else if whence = 1 then
          lseek_finish (f.offset + pos) oid f (open_file_incref h oid)
        else if whence = 2 then
          if f.vn.statErr ≠ 0 then
            (f.vn.statErr, none, open_file_decref (open_file_incref h oid) (some oid))
          else lseek_finish (f.vn.size + pos) oid f (open_file_incref h oid)
        else (EINVAL, none, open_file_decref (open_file_incref h oid) (some oid))

/-! ## sys_sbrk (sbrk_syscall.c) -/

/-- The address-space fields `sys_sbrk` reads and writes (all `vaddr_t`,
32-bit). -/
structure SbrkAS where
  heap_base : Nat
  heap_end : Nat
  stack_base : Nat
  stack_end : Nat
deriving Repr, DecidableEq

/-- `sys_sbrk` (sbrk_syscall.c): save the old break as `*retval`;
`amount == 0` returns at once; detect unsigned wrap of
`heap_end + amount` (ENOMEM); EINVAL below `heap_base`; ENOMEM at or
above `stack_end`; otherwise update `heap_end`.  `vaddr_t` addition
wraps modulo `2^32`.  Result: error code, `*retval`, updated space (the
routine allocates no frames: the embedding has no allocator state). -/
def sys_sbrk (amount : Int) (st : SbrkAS) : Nat × Int × SbrkAS :=
  let retval : Int := st.heap_end
  if amount = 0 then (0, retval, st)
  else
    let old_end := st.heap_end
    let new_end : Nat := ((((old_end : Int) + amount) % 4294967296)).toNat
    if (0 < amount ∧ new_end < old_end) ∨ (amount < 0 ∧ old_end < new_end) then
      (ENOMEM, retval, st)
    else if new_end < st.heap_base then
      (EINVAL, retval, st)
    else if st.stack_end ≤ new_end then
      (ENOMEM, retval, st)
    else
      (0, retval, { st with heap_end := new_end })

/-! ## Processes: pid table, exit and waitpid (proc.c, exit_syscall.c,
waitpid_syscall.c) -/

/-- The fields of `struct proc` the exit/wait rendezvous and the PID
table consult. -/
structure ProcR where
  p_pid : Int
  p_parent : Int
  p_exitcode : Int
  p_exited : Bool
deriving Repr, DecidableEq

/-- `_MKWAIT_EXIT` (kern/wait.h).  Modelled from the spec: the header
belongs to the base distribution and is not under the repository's
sources; the spec says the encoding "packs the low 8 bits as a normal
exit", the exit tag being the low two bits with value 0, so the value is
shifted left by two. -/
def MKWAIT_EXIT (v : Int) : Int := v * 4

/-- `sys__exit` (exit_syscall.c): under the wait-lock, store
`_MKWAIT_EXIT(code & 0xff)` and set the exited flag (the CV broadcast
and `thread_exit` do not touch the proc record).  `code & 0xff` on a
two's-complement int is `code % 256` with a non-negative result. -/
def sys__exit (code : Int) (p : ProcR) : ProcR :=
  { p with p_exitcode := MKWAIT_EXIT (code % 256), p_exited := true }

/-- `proc_get` (proc.c): the PID-table slot for an in-range pid. -/
def proc_get (tbl : Nat → Option ProcR) (pid : Int) : Option ProcR :=
  if (PID_MIN : Int) ≤ pid ∧ pid < (PID_MAX : Int) then tbl pid.toNat else none

/-- Outcome of `sys_waitpid`: a return with an error code and `*retval`,
or suspension on the child's wait-CV (the child has not exited yet). -/
inductive WaitOutcome where
  | ret (err : Nat) (retval : Option Int)
  | blocked
deriving Repr, DecidableEq

/-- `sys_waitpid` (waitpid_syscall.c).  Result: outcome, the status word
copied to user space (if any), and the PID table afterwards
(`proc_destroy` of the reaped child frees its PID slot via
`proc_freepid`).  `copyoutErr` is the oracle for the `copyout` of the
status (0 = success); when it fails the child is not destroyed. -/
def sys_waitpid (pid : Int) (statusNonNull : Bool) (options : Int) (copyoutErr : Nat)
    (tbl : Nat → Option ProcR) (curpid : Int) :
    WaitOutcome × Option Int × (Nat → Option ProcR) :=
  if options ≠ 0 then (.ret EINVAL none, none, tbl)
  else
    match proc_get tbl pid with
    | none => (.ret ESRCH none, none, tbl)
    | some child =>
      if child.p_parent ≠ curpid then (.ret ECHILD none, none, tbl)
      else if child.p_exited = false then (.blocked, none, tbl)
      else
        if statusNonNull ∧ copyoutErr ≠ 0 then (.ret copyoutErr none, none, tbl)
        else
          (.ret 0 (some pid), if statusNonNull then some child.p_exitcode else none,
            upd tbl pid.toNat none)

/-- The scan loop of `proc_allocpid` (proc.c): lowest free slot starting
at `i`, `fuel` slots to inspect. -/
def pid_scan (tbl : Nat → Option ProcR) : Nat → Nat → Option Nat
  | _, 0 => none
  | i, fuel + 1 => if tbl i = none then some i else pid_scan tbl (i + 1) fuel

/-- `proc_allocpid` (proc.c): registers `p` under the lowest free PID in
`[PID_MIN, PID_MAX)` and returns that PID — or returns the error code
ENPROC *as the pid value*, with the table unchanged, when no slot is
free. -/
def proc_allocpid (tbl : Nat → Option ProcR) (p : ProcR) :
    (Nat → Option ProcR) × Int :=
  match pid_scan tbl PID_MIN (PID_MAX - PID_MIN) with
  | some i => (upd tbl i (some { p with p_pid := (i : Int) }), (i : Int))
  | none => (tbl, (ENPROC : Int))

/-- `proc_create` (proc.c), restricted to the observable effects on the
PID table and pid fields; the kmalloc/kstrdup failure paths (which alone
make `proc_create` return NULL) are outside this claim.  In C the table
slot and the returned record are one object, so the stored record also
carries the assigned pid.  A non-kernel
name is assigned `p_pid := proc_allocpid(...)` — the scan result or the
ENPROC error code; the kernel name `[kernel]` reserves PID 1. -/
def proc_create (name : String) (tbl : Nat → Option ProcR) :
    (Nat → Option ProcR) × ProcR :=
  if name ≠ "[kernel]" then
    ((proc_allocpid tbl ⟨0, -1, 0, false⟩).1,
      { p_pid := (proc_allocpid tbl ⟨0, -1, 0, false⟩).2, p_parent := -1,
        p_exitcode := 0, p_exited := false })
  else (tbl, { p_pid := 1, p_parent := -1, p_exitcode := 0, p_exited := false })

/-! ## Virtual memory: address space and vm_fault (vm.c) -/

def VM_FAULT_READONLY : Nat := 2
def NUM_TLB : Nat := 64
def TLBLO_VALID : Nat := 512
def TLBLO_DIRTY : Nat := 1024

/-- `struct region` as used by vm.c and addrspace.c. -/
structure Region where
  vbase : Nat
  npages : Nat
  readable : Bool
  writeable : Bool
  executable : Bool
deriving Repr, DecidableEq

/-- The address-space fields consulted by `vm_fault`.  The two-level
page table maps an L1 index to an optional level-2 table, itself mapping
an L2 index to a physical address (0 = unmapped). -/
structure Addrspace where
  regions : List Region
  pt_l1 : Nat → Option (Nat → Nat)
  heap_base : Nat
  heap_end : Nat
  stack_base : Nat
  stack_end : Nat
  loading : Bool

/-- Machine and oracle state around `vm_fault`: the current address
space, the TLB (NUM_TLB `(ehi, elo)` pairs), the successive results of
`alloc_page` (0 would mean exhaustion), whether the `kmalloc` of a
level-2 table succeeds, and the `random()` value used on eviction. -/
structure VMState where
  as : Addrspace
  tlb : List (Nat × Nat)
  freshFrames : List Nat
  l2AllocOk : Bool
  rand : Nat

/-- The region-walk loop of `vm_fault`: the first region whose
`[vbase, vbase + npages*PAGE_SIZE)` contains the page-aligned fault
address. -/
def region_lookup : List Region → Nat → Option Region
  | [], _ => none
  | r :: rest, va =>
    if r.vbase ≤ va ∧ va < r.vbase + r.npages * PAGE_SIZE then some r
    else region_lookup rest va

/-- Classification of the fault address (steps 2–4 of `vm_fault`):
`some writeable` when the address lies in a region (writeable OR-ed with
the loading flag), the heap range, or the stack range (both always
writeable); `none` otherwise. -/
def vm_classify (a : Addrspace) (va : Nat) : Option Bool :=
  match region_lookup a.regions va with
  | some r => some (r.writeable || a.loading)
  | none =>
    if a.heap_base ≤ va ∧ va < a.heap_end then some true
    else if a.stack_end ≤ va ∧ va < a.stack_base then some true
    else none

/-- Index of the first TLB slot whose elo lacks `TLBLO_VALID`. -/
def tlb_first_invalid : List (Nat × Nat) → Option Nat
  | [] => none
  | e :: rest =>
    if e.2 &&& TLBLO_VALID = 0 then some 0
    else (tlb_first_invalid rest).map (· + 1)

/-- TLB insertion (end of `vm_fault`): write `(va, pa | VALID | DIRTY?)`
into the first invalid slot, or evict slot `random() % NUM_TLB`. -/
def tlb_insert (va pa : Nat) (writeable : Bool) (st : VMState) : Nat × VMState :=
  match tlb_first_invalid st.tlb with
  | some i =>
    (0, { st with tlb := st.tlb.set i (va, pa ||| TLBLO_VALID ||| (if writeable then TLBLO_DIRTY else 0)) })
  | none =>
    (0, { st with tlb := st.tlb.set (st.rand % NUM_TLB) (va, pa ||| TLBLO_VALID ||| (if writeable then TLBLO_DIRTY else 0)) })

/-- Install a level-2 table under the L1 index of `va`. -/
def pt_install (st : VMState) (va : Nat) (t : Nat → Nat) : VMState :=
  { st with as := { st.as with pt_l1 := upd st.as.pt_l1 (va / 4194304 % 1024) (some t) } }

/-- Leaf step of `vm_fault` with the level-2 table `t` in hand: a zero
entry allocates and installs a fresh zeroed frame (ENOMEM when
`alloc_page` returns 0), then the mapping is inserted into the TLB. -/
def vm_leaf (va : Nat) (writeable : Bool) (t : Nat → Nat) (st : VMState) : Nat × VMState :=
  if t (va / 4096 % 1024) = 0 then
    if st.freshFrames.headD 0 = 0 then (ENOMEM, { st with freshFrames := st.freshFrames.tail })
    else
      tlb_insert va (st.freshFrames.headD 0) writeable
        (pt_install { st with freshFrames := st.freshFrames.tail } va
          (upd t (va / 4096 % 1024) (st.freshFrames.headD 0)))
  else tlb_insert va (t (va / 4096 % 1024)) writeable st

/-- Page-table walk of `vm_fault`: fetch or allocate (zeroed) the
level-2 table for the L1 index, then continue at the leaf. -/
def vm_walk (va : Nat) (writeable : Bool) (st : VMState) : Nat × VMState :=
  match st.as.pt_l1 (va / 4194304 % 1024) with
  | none =>
    if st.l2AllocOk = false then (ENOMEM, st)
    else vm_leaf va writeable (fun _ => 0) (pt_install st va (fun _ => 0))
  | some t => vm_leaf va writeable t st

/-- `vm_fault` (vm.c): page-align the fault address, classify it against
regions / heap / stack (EFAULT if nowhere), reject a read-only violation
on a non-writeable page (EFAULT), then walk the two-level page table,
allocating a zeroed frame on first touch, and install a TLB entry. -/
def vm_fault (faulttype faultaddress : Nat) (st : VMState) : Nat × VMState :=
  match vm_classify st.as (faultaddress / PAGE_SIZE * PAGE_SIZE) with
  | none => (EFAULT, st)
  | some writeable =>
    if faulttype = VM_FAULT_READONLY ∧ writeable = false then (EFAULT, st)
    else vm_walk (faultaddress / PAGE_SIZE * PAGE_SIZE) writeable st

/-! ## execv (execv_syscall.c) -/

/-- Observable process state around `sys_execv`: the current address
space (the id installed by `proc_setas`) and the fields the atomicity
claim requires untouched (file table and CWD as opaque ids). -/
structure ProcSt where
  addrspace : Nat
  file_table : Nat
  cwd : Nat
  pid : Int
  parent : Int
deriving Repr, DecidableEq

/-- Oracle for the external calls `sys_execv` makes, one field per call
site; indexed fields are consumed per loop iteration. -/
structure ExecEnv where
  pathNull : Bool
  argvNull : Bool
  copyinstrPath : Except Nat String
  kmallocKarg : Bool
  copyinPtr : Nat → Except Nat (Option Nat)
  copyinByte : Nat → Nat → Except Nat Nat
  kmallocKargv : Bool
  kmallocBlock : Bool
  copyinstrArg : Option Nat → Except Nat String
  vfsOpen : Except Nat Unit
  asCreateOk : Bool
  newAsId : Nat
  loadElf : Except Nat Nat
  defineStack : Except Nat Nat
  kmallocArgPtrs : Bool
  copyoutStr : Nat → Nat
  copyoutPtr : Nat → Nat

/-- The byte-by-byte length measurement in pass 1 of `sys_execv`:
`copyin` one byte at a time until the NUL, failing with the copyin
error, or with E2BIG once `arglen` exceeds `ARG_MAX`.  Returns `arglen`
including the NUL.  Fuel bounds the recursion; `ARG_MAX + 2` steps
always suffice because the loop exits once `arglen > ARG_MAX`. -/
def measure_arg (env : ExecEnv) (p : Nat) : Nat → Nat → Except Nat Nat
  | _, 0 => Except.error E2BIG
  | arglen, fuel + 1 =>
    match env.copyinByte p arglen with
    | Except.error e => Except.error e
    | Except.ok ch =>
      if arglen + 1 > ARG_MAX then Except.error E2BIG
      else if ch ≠ 0 then measure_arg env p (arglen + 1) fuel
      else Except.ok (arglen + 1)

/-- Pass 1 of `sys_execv`: enumerate argv until a NULL pointer,
measuring each string and enforcing the overall ARG_MAX budget (string
bytes plus the `(argc+1)` pointer words of 4 bytes).  Returns
`(argc, total_bytes)`.  Fuel bounds the recursion; `ARG_MAX + 1`
iterations suffice because each one adds at least one byte to a total
the budget check keeps at most ARG_MAX. -/
def execv_pass1 (env : ExecEnv) : Nat → Nat → Nat → Except Nat (Nat × Nat)
  | _, _, 0 => Except.error E2BIG
  | argc, total_bytes, fuel + 1 =>
    match env.copyinPtr argc with
    | Except.error e => Except.error e
    | Except.ok none => Except.ok (argc, total_bytes)
    | Except.ok (some p) =>
      match measure_arg env p 0 (ARG_MAX + 2) with
      | Except.error e => Except.error e
      | Except.ok arglen =>
        if total_bytes + arglen + (argc + 1) * 4 > ARG_MAX then Except.error E2BIG
        else execv_pass1 env (argc + 1) (total_bytes + arglen) fuel

/-- Pass 2 of `sys_execv`: re-fetch each argv pointer and `copyinstr`
the string into the packed kernel block, remapping ENAMETOOLONG to
E2BIG and rejecting a single string over ARG_MAX.  Returns the strings
in order. -/
def execv_pass2 (env : ExecEnv) : List Nat → List String → Except Nat (List String)
  | [], acc => Except.ok acc.reverse
  | i :: rest, acc =>
    match env.copyinPtr i with
    | Except.error e => Except.error e
    | Except.ok p =>
      match env.copyinstrArg p with
      | Except.error e => Except.error (if e = ENAMETOOLONG then E2BIG else e)
      | Except.ok s =>
        if s.length + 1 > ARG_MAX then Except.error E2BIG
        else execv_pass2 env rest (s :: acc)

/-- The user-stack string-push loop: for each `(i, s)` from
`argv[argc-1]` down to `argv[0]`, move the stack pointer down by the
string length (NUL included) and `copyout` the string, failing with the
copyout error. -/
def execv_push_strings (env : ExecEnv) : List (Nat × String) → Nat → Except Nat Nat
  | [], sp => Except.ok sp
  | (i, s) :: rest, sp =>
    if env.copyoutStr i ≠ 0 then Except.error (env.copyoutStr i)
    else execv_push_strings env rest (sp - (s.length + 1))

/-- The argv-array push loop: for `i` from `argc` down to 0, move the
stack pointer down one word and `copyout` the recorded pointer. -/
def execv_push_ptrs (env : ExecEnv) : List Nat → Nat → Except Nat Nat
  | [], sp => Except.ok sp
  | i :: rest, sp =>
    if env.copyoutPtr i ≠ 0 then Except.error (env.copyoutPtr i)
    else execv_push_ptrs env rest (sp - 4)

/-- `proc_setas` as it acts on the observable process state. -/
def proc_setas_st (st : ProcSt) (a : Nat) : ProcSt := { st with addrspace := a }

/-- The tail of `sys_execv` after `proc_setas(new_as); as_activate()`:
every failure performs `proc_setas(old_as); as_activate()` before
returning; success destroys the old space and enters user mode with
`(argc, argv_userptr, stackptr, entrypoint)`. -/
def execv_after_swap (env : ExecEnv) (st : ProcSt) (argc : Nat) (args : List String) :
    Except Nat (Nat × Nat × Nat × Nat) × ProcSt :=
  match env.loadElf with
  | Except.error e =>
    (Except.error e, proc_setas_st (proc_setas_st st env.newAsId) st.addrspace)
  | Except.ok entry =>
    match env.defineStack with
    | Except.error e =>
      (Except.error e, proc_setas_st (proc_setas_st st env.newAsId) st.addrspace)
    | Except.ok sp0 =>
      if env.kmallocArgPtrs = false then
        (Except.error ENOMEM, proc_setas_st (proc_setas_st st env.newAsId) st.addrspace)
      else
        match execv_push_strings env args.enum.reverse sp0 with
        | Except.error e =>
          (Except.error e, proc_setas_st (proc_setas_st st env.newAsId) st.addrspace)
        | Except.ok sp1 =>
          match execv_push_ptrs env (List.range (argc + 1)).reverse (sp1 / 8 * 8) with
          | Except.error e =>
            (Except.error e, proc_setas_st (proc_setas_st st env.newAsId) st.addrspace)
          | Except.ok sp2 =>
            (Except.ok (argc, sp2, sp2, entry), proc_setas_st st env.newAsId)

/-- `sys_execv` (execv_syscall.c): argument validation, path copy, the
two argv passes, `vfs_open`, address-space creation and swap, ELF load,
stack build, and entry to user mode; every kernel-buffer cleanup
(`kfree`) is unobservable here.  Result: the error, or the
`(argc, argv_userptr, stackptr, entrypoint)` handed to
`enter_new_process`, together with the resulting process state. -/
def sys_execv (env : ExecEnv) (st : ProcSt) :
    Except Nat (Nat × Nat × Nat × Nat) × ProcSt :=
  if env.pathNull then (Except.error EFAULT, st)
  else if env.argvNull then (Except.error EFAULT, st)
  else
    match env.copyinstrPath with
    | Except.error e => (Except.error e, st)
    | Except.ok kpath =>
      if kpath = "" then (Except.error EINVAL, st)
      else if env.kmallocKarg = false then (Except.error ENOMEM, st)
      else
        match execv_pass1 env 0 0 (ARG_MAX + 1) with
        | Except.error e => (Except.error e, st)
        | Except.ok (argc, _) =>
          if env.kmallocKargv = false then (Except.error ENOMEM, st)
          else if env.kmallocBlock = false then (Except.error ENOMEM, st)
          else
            match execv_pass2 env (List.range argc) [] with
            | Except.error e => (Except.error e, st)
            | Except.ok args =>
              match env.vfsOpen with
              | Except.error e => (Except.error e, st)
              | Except.ok _ =>
                if env.asCreateOk = false then (Except.error ENOMEM, st)
                else execv_after_swap env st argc args

/-! ## Physical allocator (coremap.c)

The coremap is the array of per-frame `(free, block_size)` entries;
frame index `i` stands for physical address `first_paddr + i*PAGE_SIZE`
(the `pa < first_paddr` guards in the free paths correspond to
addresses below index 0 and are outside this model).  All operations
below model the post-bootstrap (`coremap_ready`) paths; the spinlock
makes each one atomic. -/

/-- One coremap entry (coremap.c). -/
structure CMEntry where
  free : Bool
  block_size : Nat
deriving Repr, DecidableEq

abbrev Coremap := List CMEntry

/-- `alloc_page` (coremap.c): mark the first free frame
`{free := false, block_size := 1}`.  Returns the new map and the index
allocated (`none` = exhaustion, C returns 0). -/
def alloc_page : Coremap → Coremap × Option Nat
  | [] => ([], none)
  | e :: rest =>
    if e.free then (⟨false, 1⟩ :: rest, some 0)
    else ((e :: (alloc_page rest).1), (alloc_page rest).2.map (· + 1))

/-- The inner run check of `alloc_kpages`: the first `n` frames all
exist (`i + j < total_pages`) and are free. -/
def run_free : Coremap → Nat → Bool
  | _, 0 => true
  | [], _ + 1 => false
  | e :: rest, n + 1 => e.free && run_free rest n

/-- The `j = 1 .. npages-1` loop of `alloc_kpages`: overwrite the next
`k` frames with interior entries `{free := false, block_size := 0}`. -/
def mark_interior : Nat → Coremap → Coremap
  | 0, cm => cm
  | _ + 1, [] => []
  | k + 1, _ :: rest => ⟨false, 0⟩ :: mark_interior k rest

/-- Mark an `n`-frame block at the head of `cm`: the head records
`block_size := n` and the following `n - 1` frames become interior.
The head is written even for `n = 0`, exactly as the source's
`coremap[i].free = false; coremap[i].block_size = npages` does. -/
def mark_block (n : Nat) : Coremap → Coremap
  | [] => []
  | _ :: rest => ⟨false, n⟩ :: mark_interior (n - 1) rest

/-- The first-fit scan of `alloc_kpages` (coremap.c): skip non-free
frames; at a free frame whose run check succeeds, mark the block.
Returns the new map and the head index (`none` = no run found, C
returns 0). -/
def alloc_kpages_scan (n : Nat) : Coremap → Coremap × Option Nat
  | [] => ([], none)
  | e :: rest =>
    if e.free && run_free (e :: rest) n then (mark_block n (e :: rest), some 0)
    else ((e :: (alloc_kpages_scan n rest).1), (alloc_kpages_scan n rest).2.map (· + 1))

/-- `free_page` (coremap.c): the frame index must be in range
(`KASSERT(cm_idx < total_pages)`) and carry `block_size == 1`
(`KASSERT`); the frame becomes free.  `none` models an assertion
failure (kernel panic). -/
def free_page (cm : Coremap) (idx : Nat) : Option Coremap :=
  match cm[idx]? with
  | none => none
  | some e => if e.block_size = 1 then some (cm.set idx ⟨true, 0⟩) else none

/-- Free `n` consecutive frames starting at `idx`. -/
def free_range : Coremap → Nat → Nat → Coremap
  | cm, _, 0 => cm
  | cm, idx, n + 1 => free_range (cm.set idx ⟨true, 0⟩) (idx + 1) n

/-- `free_kpages` (coremap.c): the head index must be in range and
carry a positive `block_size` (`KASSERT`s); exactly `block_size`
consecutive frames are freed.  `none` models an assertion failure. -/
def free_kpages (cm : Coremap) (idx : Nat) : Option Coremap :=
  match cm[idx]? with
  | none => none
  | some e =>
    if e.block_size = 0 then none
    else some (free_range cm idx e.block_size)

/-- One allocator operation.  `alloc_kpages` is restricted to `n ≥ 1`:
for `n = 0` the source marks one frame `{free := false,
block_size := 0}` and the accounting invariant fails (see the
counterexample). -/
inductive CMStep : Coremap → Coremap → Prop where
  | alloc_page (cm : Coremap) : CMStep cm (alloc_page cm).1
  | alloc_kpages (cm : Coremap) (n : Nat) (h : 1 ≤ n) :
      CMStep cm (alloc_kpages_scan n cm).1
  | free_page (cm cm2 : Coremap) (idx : Nat) (h : free_page cm idx = some cm2) :
      CMStep cm cm2
  | free_kpages (cm cm2 : Coremap) (idx : Nat) (h : free_kpages cm idx = some cm2) :
      CMStep cm cm2

/-- Reachable coremap states: any sequence of allocator operations
starting from the post-bootstrap map of `total_pages` free frames. -/
def CMReachable (total_pages : Nat) (cm : Coremap) : Prop :=
  Relation.ReflTransGen CMStep (List.replicate total_pages ⟨true, 0⟩) cm

/-- Sum of `block_size` over all frames.  Interior frames carry 0, so
this is the sum over the head frames of live allocations. -/
def sum_block_sizes (cm : Coremap) : Nat := (cm.map (·.block_size)).sum

/-- Number of allocated (`free = false`) frames. -/
def count_allocated (cm : Coremap) : Nat := cm.countP (fun e => !e.free)

/-- The coremap accounting invariant of the claim:
`sum_of_head_block_sizes == count(free == false)`. -/
def cm_account (cm : Coremap) : Prop := sum_block_sizes cm = count_allocated cm

/-- Structural well-formedness: the coremap is a sequence of free
frames `⟨true, 0⟩` and blocks — a head `⟨false, n+1⟩` followed by `n`
interior frames `⟨false, 0⟩`. -/
inductive CMWf : Coremap → Prop where
  | nil : CMWf []
  | free {cm : Coremap} : CMWf cm → CMWf (⟨true, 0⟩ :: cm)
  | block {cm : Coremap} (n : Nat) :
      CMWf cm → CMWf (⟨false, n + 1⟩ :: (List.replicate n ⟨false, 0⟩ ++ cm))

/-! ## Theorems on the file table -/

theorem destroy_ft_slot_heap (s : FTable × ObjHeap) (i : Nat) :
    (destroy_ft_slot s i).2 = s.2 := by
  unfold destroy_ft_slot
  cases hsi : s.1 i with
  | none => rfl
  | some oid => simp [open_file_decref, upd]

theorem foldl_destroy_ft_slot_heap (l : List Nat) (s : FTable × ObjHeap) :
    (l.foldl destroy_ft_slot s).2 = s.2 := by
  induction l generalizing s with
  | nil => rfl
  | cons a l ih => rw [List.foldl_cons, ih, destroy_ft_slot_heap]

/-- C1: refuted on the code.  The claim says the refcount of every
non-null slot is decremented by `destroy_file_table`, closing the vnode
when the last reference drops.  In the source the slot is nulled
*before* its value is passed to `open_file_decref`, so the decrement is
always applied to NULL: the object heap — reference counts and vnode
close counts alike — is left completely unchanged, and the vnode of an
object whose only reference was this table is never closed. -/
theorem destroy_file_table_never_closes (ft : FTable) (h : ObjHeap) :
    (destroy_file_table ft h).2 = h :=
  foldl_destroy_ft_slot_heap _ _

/-- C2: refuted on the code.  `sys_write`'s descriptor validation is
`fd < 0 || fd > __OPEN_MAX`, so `fd = OPEN_MAX` passes it and the routine
reads file-table slot `OPEN_MAX` — one past the end of the
`files[__OPEN_MAX]` array — instead of returning EBADF without any
table access. -/
theorem sys_write_reads_slot_OPEN_MAX :
    (sys_write (OPEN_MAX : Int) 1 (fun _ => none)
        { obj := fun _ => none, closes := fun _ => 0 }).slotRead = some OPEN_MAX := by
  rfl

/-- C10: `sys_dup2` is idempotent.  Part 1: when the two descriptors are
valid and either coincide or `newfd`'s slot already holds the very
object `oldfd`'s slot holds, the call returns 0 with result `newfd` and
changes neither the file table nor the object heap.  Part 2: for every
input whatsoever, running `sys_dup2(oldfd, newfd)` a second time on the
state produced by the first run returns the same error, result and
state as the first run. -/
theorem sys_dup2_noop_and_idempotent (oldfd newfd : Int) (ft : FTable) (h : ObjHeap) :
    ((¬ (oldfd < 0 ∨ newfd < 0 ∨ (OPEN_MAX : Int) ≤ oldfd ∨ (OPEN_MAX : Int) ≤ newfd)) →
      (oldfd = newfd ∨ (ft oldfd.toNat ≠ none ∧ ft newfd.toNat = ft oldfd.toNat)) →
      sys_dup2 oldfd newfd ft h = (0, some newfd, ft, h))
    ∧ sys_dup2 oldfd newfd (sys_dup2 oldfd newfd ft h).2.2.1
        (sys_dup2 oldfd newfd ft h).2.2.2 = sys_dup2 oldfd newfd ft h := by
  constructor
  · intro hvalid hsame
    unfold sys_dup2
    rw [if_neg hvalid]
    rcases hsame with heq | ⟨hold, hnew⟩
    · rw [if_pos heq]
    · by_cases heq : oldfd = newfd
      · rw [if_pos heq]
      · rw [if_neg heq]
        cases holdv : ft oldfd.toNat with
        | none => exact absurd holdv hold
        | some old_oid =>
          rw [holdv] at hnew
          rw [hnew]
          simp
  · by_cases hvalid : oldfd < 0 ∨ newfd < 0 ∨ (OPEN_MAX : Int) ≤ oldfd ∨ (OPEN_MAX : Int) ≤ newfd
    · have h1 : sys_dup2 oldfd newfd ft h = (EBADF, none, ft, h) := by
        unfold sys_dup2; rw [if_pos hvalid]
      rw [h1]; exact h1
    · by_cases heq : oldfd = newfd
      · have h1 : sys_dup2 oldfd newfd ft h = (0, some newfd, ft, h) := by
          unfold sys_dup2; rw [if_neg hvalid, if_pos heq]
        rw [h1]; exact h1
      · cases holdv : ft oldfd.toNat with
        | none =>
          have h1 : sys_dup2 oldfd newfd ft h = (EBADF, none, ft, h) := by
            unfold sys_dup2; rw [if_neg hvalid, if_neg heq, holdv]
          rw [h1]; exact h1
        | some old_oid =>
          have hne : oldfd.toNat ≠ newfd.toNat := by omega
          cases hnewv : ft newfd.toNat with
          | none =>
            have h1 : sys_dup2 oldfd newfd ft h
                = (0, some newfd, upd ft newfd.toNat (some old_oid),
                    open_file_incref h old_oid) := by
              unfold sys_dup2; rw [if_neg hvalid, if_neg heq, holdv, hnewv]
            have h2 : sys_dup2 oldfd newfd (upd ft newfd.toNat (some old_oid))
                (open_file_incref h old_oid)
                = (0, some newfd, upd ft newfd.toNat (some old_oid),
                    open_file_incref h old_oid) := by
              unfold sys_dup2
              rw [if_neg hvalid, if_neg heq, upd_other _ _ _ _ hne, holdv, upd_same]
              simp
            rw [h1]; exact h2
          | some new_oid =>
            by_cases hsameobj : new_oid = old_oid
            · have h1 : sys_dup2 oldfd newfd ft h = (0, some newfd, ft, h) := by
                unfold sys_dup2
                rw [if_neg hvalid, if_neg heq, holdv, hnewv]
                simp [hsameobj]
              rw [h1]; exact h1
            · have h1 : sys_dup2 oldfd newfd ft h
                  = (0, some newfd, upd (upd ft newfd.toNat none) newfd.toNat (some old_oid),
                      open_file_decref (open_file_incref h old_oid) (some new_oid)) := by
                unfold sys_dup2
                rw [if_neg hvalid, if_neg heq, holdv, hnewv]
                simp [hsameobj]
              have h2 : sys_dup2 oldfd newfd
                  (upd (upd ft newfd.toNat none) newfd.toNat (some old_oid))
                  (open_file_decref (open_file_incref h old_oid) (some new_oid))
                  = (0, some newfd, upd (upd ft newfd.toNat none) newfd.toNat (some old_oid),
                      open_file_decref (open_file_incref h old_oid) (some new_oid)) := by
                unfold sys_dup2
                rw [if_neg hvalid, if_neg heq, upd_other _ _ _ _ hne,
                  upd_other _ _ _ _ hne, holdv, upd_same]
                simp
              rw [h1]; exact h2

/-- Witness for C10 at a concrete input: descriptors 3 and 10 both
holding object 0; the call is a no-op returning 10. -/
theorem sys_dup2_noop_witness :
    sys_dup2 3 10 (fun j => if j = 3 ∨ j = 10 then some 0 else none)
      { obj := fun _ => none, closes := fun _ => 0 }
    = (0, some 10, (fun j => if j = 3 ∨ j = 10 then some 0 else none),
      { obj := fun _ => none, closes := fun _ => 0 }) := by
  exact (sys_dup2_noop_and_idempotent 3 10 _ _).1 (by decide)
    (Or.inr (by constructor <;> decide))

/-! ## Helper lemmas on the object heap -/

theorem upd_upd {β : Type} (f : Nat → β) (i : Nat) (a b : β) :
    upd (upd f i a) i b = upd f i b := by
  funext j; unfold upd; by_cases hj : j = i <;> simp [hj]

theorem upd_eq_self {β : Type} (f : Nat → β) (i : Nat) (v : β) (h : f i = v) :
    upd f i v = f := by
  funext j; unfold upd; by_cases hj : j = i <;> simp [hj, h]

theorem ObjHeap.eq_of_fields (a b : ObjHeap) (h1 : a.obj = b.obj)
    (h2 : a.closes = b.closes) : a = b := by
  cases a; cases b; cases h1; cases h2; rfl

theorem open_file_incref_eq (h : ObjHeap) (oid : Nat) (f : OpenFile)
    (hobj : h.obj oid = some f) :
    open_file_incref h oid
    = { h with obj := upd h.obj oid (some { f with reference_count := f.reference_count + 1 }) } := by
  unfold open_file_incref; rw [hobj]

theorem open_file_decref_live (h : ObjHeap) (oid : Nat) (g : OpenFile)
    (hobj : h.obj oid = some g) (hrc : 2 ≤ g.reference_count) :
    open_file_decref h (some oid)
    = { h with obj := upd h.obj oid (some { g with reference_count := g.reference_count - 1 }) } := by
  have step : open_file_decref h (some oid)
      = if g.reference_count - 1 = 0 then
          { obj := upd h.obj oid none, closes := upd h.closes oid (h.closes oid + 1) }
        else
          { obj := upd h.obj oid (some { g with reference_count := g.reference_count - 1 }),
            closes := h.closes } := by
    simp only [open_file_decref]
    rw [hobj]
  rw [step, if_neg (by omega)]

/-- The `open_file_incref` / `open_file_decref` bracket around a file
operation leaves a live object's heap entry untouched. -/
theorem open_file_decref_incref (h : ObjHeap) (oid : Nat) (f : OpenFile)
    (hobj : h.obj oid = some f) (hrc : 1 ≤ f.reference_count) :
    open_file_decref (open_file_incref h oid) (some oid) = h := by
  rw [open_file_incref_eq h oid f hobj]
  rw [open_file_decref_live _ oid { f with reference_count := f.reference_count + 1 }
    (upd_same _ _ _) (Nat.succ_le_succ hrc)]
  refine ObjHeap.eq_of_fields _ _ ?_ rfl
  show upd (upd h.obj oid _) oid _ = h.obj
  rw [upd_upd]
  refine upd_eq_self _ _ _ ?_
  rw [hobj, Nat.add_sub_cancel]

/-- Net effect of `lseek_finish` applied after the `open_file_incref`
bracket: EINVAL and an untouched heap on a negative offset, otherwise
the offset field of the shared object is replaced. -/
theorem lseek_finish_eq (v : Int) (oid : Nat) (f : OpenFile) (h : ObjHeap)
    (hobj : h.obj oid = some f) (hrc : 1 ≤ f.reference_count) :
    lseek_finish v oid f (open_file_incref h oid)
    = if v < 0 then (EINVAL, none, h)
      else (0, some v, { h with obj := upd h.obj oid (some { f with offset := v }) }) := by
  unfold lseek_finish
  by_cases hv : v < 0
  · rw [if_pos hv, if_pos hv, open_file_decref_incref h oid f hobj hrc]
  · rw [if_neg hv, if_neg hv]
    refine congrArg _ (congrArg _ ?_)
    refine Eq.trans (open_file_decref_live _ oid
      { f with reference_count := f.reference_count + 1, offset := v }
      (upd_same _ _ _) (Nat.succ_le_succ hrc)) ?_
    refine ObjHeap.eq_of_fields _ _ ?_ ?_
    · show upd (upd (open_file_incref h oid).obj oid _) oid _ = _
      rw [upd_upd, open_file_incref_eq h oid f hobj]
      show upd (upd h.obj oid _) oid _ = _
      rw [upd_upd]
      show upd h.obj oid (some { f with reference_count := f.reference_count + 1 - 1, offset := v }) = _
      rw [Nat.add_sub_cancel]
    · show (open_file_incref h oid).closes = h.closes
      rw [open_file_incref_eq h oid f hobj]

/-! ## Theorems for the sbrk claim -/

/-- C6: `sys_sbrk(amount)` returns the pre-call `heap_end` as its result
value; `amount == 0` changes nothing; unsigned wraparound of
`heap_end + amount` is detected and rejected (ENOMEM); a new end below
`heap_base` gives EINVAL; a new end reaching `stack_end` gives ENOMEM;
on success `heap_end` becomes the old value plus `amount` (the routine
has no allocator state, so no frame is allocated); on every failure the
whole address space, `heap_end` included, is unchanged. -/
theorem sys_sbrk_spec (amount : Int) (st : SbrkAS)
    (hend : st.heap_end < 4294967296)
    (hstk : st.stack_end < 4294967296)
    (hlo : -2147483648 ≤ amount) (hhi : amount < 2147483648) :
    ((sys_sbrk amount st).2.1 = (st.heap_end : Int))
    ∧ (amount = 0 → sys_sbrk amount st = (0, (st.heap_end : Int), st))
    ∧ (((st.heap_end : Int) + amount < 0 ∨ (4294967296 : Int) ≤ (st.heap_end : Int) + amount) →
        sys_sbrk amount st = (ENOMEM, (st.heap_end : Int), st))
    ∧ (amount ≠ 0 → 0 ≤ (st.heap_end : Int) + amount →
        (st.heap_end : Int) + amount < 4294967296 →
        (st.heap_end : Int) + amount < (st.heap_base : Int) →
        sys_sbrk amount st = (EINVAL, (st.heap_end : Int), st))
    ∧ (amount ≠ 0 → 0 ≤ (st.heap_end : Int) + amount →
        (st.heap_end : Int) + amount < 4294967296 →
        (st.heap_base : Int) ≤ (st.heap_end : Int) + amount →
        (st.stack_end : Int) ≤ (st.heap_end : Int) + amount →
        sys_sbrk amount st = (ENOMEM, (st.heap_end : Int), st))
    ∧ (amount ≠ 0 → (st.heap_base : Int) ≤ (st.heap_end : Int) + amount →
        (st.heap_end : Int) + amount < (st.stack_end : Int) →
        sys_sbrk amount st = (0, (st.heap_end : Int),
          { st with heap_end := ((st.heap_end : Int) + amount).toNat }))
    ∧ (∀ e r st2, sys_sbrk amount st = (e, r, st2) → e ≠ 0 → st2 = st) := by
  simp only [sys_sbrk]
  by_cases h0 : amount = 0
  · subst h0
    simp only [if_pos rfl]
    refine ⟨rfl, fun _ => rfl, ?_, ?_, ?_, ?_, ?_⟩
    · intro hw; exfalso; omega
    · intro hne; exact absurd rfl hne
    · intro hne; exact absurd rfl hne
    · intro hne; exact absurd rfl hne
    · intro e r st2 heq hne; cases heq; exact absurd rfl hne
  · rw [if_neg h0]
    by_cases hw : (0 < amount ∧ ((((st.heap_end : Int) + amount) % 4294967296)).toNat < st.heap_end)
        ∨ (amount < 0 ∧ st.heap_end < ((((st.heap_end : Int) + amount) % 4294967296)).toNat)
    · rw [if_pos hw]
      refine ⟨rfl, fun h => absurd h h0, fun _ => rfl, ?_, ?_, ?_, ?_⟩
      · intro _ hge hlt _; exfalso; omega
      · intro _ hge hlt _ _; exfalso; omega
      · intro _ hbase hstke; exfalso; omega
      · intro e r st2 heq _; cases heq; rfl
    · rw [if_neg hw]
      by_cases hb : ((((st.heap_end : Int) + amount) % 4294967296)).toNat < st.heap_base
      · rw [if_pos hb]
        refine ⟨rfl, fun h => absurd h h0, ?_, fun _ _ _ _ => rfl, ?_, ?_, ?_⟩
        · intro hwrap; exfalso; omega
        · intro _ _ _ hge _; exfalso; omega
        · intro _ hge _; exfalso; omega
        · intro e r st2 heq _; cases heq; rfl
      · rw [if_neg hb]
        by_cases hs : st.stack_end ≤ ((((st.heap_end : Int) + amount) % 4294967296)).toNat
        · rw [if_pos hs]
          refine ⟨rfl, fun h => absurd h h0, ?_, ?_, fun _ _ _ _ _ => rfl, ?_, ?_⟩
          · intro hwrap; exfalso; omega
          · intro _ _ _ hlt; exfalso; omega
          · intro _ _ hlt; exfalso; omega
          · intro e r st2 heq _; cases heq; rfl
        · rw [if_neg hs]
          refine ⟨rfl, fun h => absurd h h0, ?_, ?_, ?_, ?_, ?_⟩
          · intro hwrap; exfalso; omega
          · intro _ _ _ hlt; exfalso; omega
          · intro _ _ _ _ hge; exfalso; omega
          · intro _ _ _
            have hmod : ((((st.heap_end : Int) + amount) % 4294967296)).toNat
                = ((st.heap_end : Int) + amount).toNat := by omega
            rw [hmod]
          · intro e r st2 heq hne; cases heq; exact absurd rfl hne

/-- Witness for C6: a space with heap `[0x1000, 0x1000)` and stack end
`0x5000`; `sbrk 4096` succeeds, returns the old break `0x1000` and moves
`heap_end` to `0x2000`. -/
theorem sys_sbrk_spec_witness :
    sys_sbrk 4096 ⟨4096, 4096, 32768, 20480⟩
      = (0, (4096 : Int), ⟨4096, 8192, 32768, 20480⟩) := by
  have h := (sys_sbrk_spec 4096 ⟨4096, 4096, 32768, 20480⟩ (by norm_num) (by norm_num)
    (by norm_num) (by norm_num)).2.2.2.2.2.1 (by norm_num) (by norm_num) (by norm_num)
  simpa using h

/-! ## Theorems for the lseek claim -/

/-- C8: `sys_lseek` returns EBADF for an out-of-range or unopen fd;
ESPIPE when the vnode is not seekable; computes the new offset as `pos`
(SEEK_SET = 0), current offset plus `pos` (SEEK_CUR = 1), or stat size
plus `pos` (SEEK_END = 2); EINVAL for any other whence and for a
negative computed offset, leaving the offset unchanged; on success the
new offset is stored in the shared object and returned. -/
theorem sys_lseek_spec (fd pos whence : Int) (ft : FTable) (h : ObjHeap)
    (oid : Nat) (f : OpenFile)
    (hfd : ¬ (fd < 0 ∨ (OPEN_MAX : Int) ≤ fd))
    (hft : ft fd.toNat = some oid)
    (hobj : h.obj oid = some f)
    (hrc : 1 ≤ f.reference_count) :
    (∀ fd2 : Int, (fd2 < 0 ∨ (OPEN_MAX : Int) ≤ fd2) →
        sys_lseek fd2 pos whence ft h = (EBADF, none, h))
    ∧ (∀ fd3 : Int, ¬ (fd3 < 0 ∨ (OPEN_MAX : Int) ≤ fd3) → ft fd3.toNat = none →
        sys_lseek fd3 pos whence ft h = (EBADF, none, h))
    ∧ (f.vn.seekable = false → sys_lseek fd pos whence ft h = (ESPIPE, none, h))
    ∧ (f.vn.seekable = true →
        ((whence = 0 →
            sys_lseek fd pos whence ft h
            = if pos < 0 then (EINVAL, none, h)
              else (0, some pos,
                { h with obj := upd h.obj oid (some { f with offset := pos }) }))
        ∧ (whence = 1 →
            sys_lseek fd pos whence ft h
            = if f.offset + pos < 0 then (EINVAL, none, h)
              else (0, some (f.offset + pos),
                { h with obj := upd h.obj oid (some { f with offset := f.offset + pos }) }))
        ∧ (whence = 2 → f.vn.statErr = 0 →
            sys_lseek fd pos whence ft h
            = if f.vn.size + pos < 0 then (EINVAL, none, h)
              else (0, some (f.vn.size + pos),
                { h with obj := upd h.obj oid (some { f with offset := f.vn.size + pos }) }))
        ∧ (whence ≠ 0 → whence ≠ 1 → whence ≠ 2 →
            sys_lseek fd pos whence ft h = (EINVAL, none, h)))) := by
  have hbody : sys_lseek fd pos whence ft h
      = if f.vn.seekable = false then
          (ESPIPE, none, open_file_decref (open_file_incref h oid) (some oid))
        else if whence = 0 then
          lseek_finish pos oid f (open_file_incref h oid)
        else if whence = 1 then
          lseek_finish (f.offset + pos) oid f (open_file_incref h oid)
        else if whence = 2 then
          if f.vn.statErr ≠ 0 then
            (f.vn.statErr, none, open_file_decref (open_file_incref h oid) (some oid))
          else lseek_finish (f.vn.size + pos) oid f (open_file_incref h oid)
        else (EINVAL, none, open_file_decref (open_file_incref h oid) (some oid)) := by
    simp only [sys_lseek, if_neg hfd, hft, hobj]
  refine ⟨?_, ?_, ?_, ?_⟩
  · intro fd2 hbad
    unfold sys_lseek
    rw [if_pos hbad]
  · intro fd3 hok hnone
    simp only [sys_lseek, if_neg hok, hnone]
  · intro hsf
    rw [hbody, if_pos hsf, open_file_decref_incref h oid f hobj hrc]
  · intro hst
    have hsf : ¬ f.vn.seekable = false := by rw [hst]; simp
    refine ⟨?_, ?_, ?_, ?_⟩
    · intro h0
      rw [hbody, if_neg hsf, if_pos h0, lseek_finish_eq pos oid f h hobj hrc]
    · intro h1
      have h0 : ¬ whence = 0 := by omega
      rw [hbody, if_neg hsf, if_neg h0, if_pos h1,
        lseek_finish_eq (f.offset + pos) oid f h hobj hrc]
    · intro h2 hse
      have h0 : ¬ whence = 0 := by omega
      have h1 : ¬ whence = 1 := by omega
      have hne : ¬ f.vn.statErr ≠ 0 := by omega
      rw [hbody, if_neg hsf, if_neg h0, if_neg h1, if_pos h2, if_neg hne,
        lseek_finish_eq (f.vn.size + pos) oid f h hobj hrc]
    · intro h0 h1 h2
      rw [hbody, if_neg hsf, if_neg h0, if_neg h1, if_neg h2,
        open_file_decref_incref h oid f hobj hrc]

/-- Witness for C8 (spec scenario S3): descriptor 3 holds a seekable
file of size 100 at offset 20; `lseek(3, 10, SEEK_SET)` returns 10 and
stores offset 10. -/
theorem sys_lseek_spec_witness :
    sys_lseek 3 10 0 (fun j => if j = 3 then some 0 else none)
      { obj := fun j => if j = 0 then some ⟨20, 2, ⟨true, 0, 100, fun _ _ => (0, 0)⟩, 1⟩ else none,
        closes := fun _ => 0 }
    = (0, some 10,
      { obj := upd (fun j => if j = 0 then some ⟨20, 2, ⟨true, 0, 100, fun _ _ => (0, 0)⟩, 1⟩ else none)
          0 (some ⟨10, 2, ⟨true, 0, 100, fun _ _ => (0, 0)⟩, 1⟩),
        closes := fun _ => 0 }) := by
  have h := (sys_lseek_spec 3 10 0 (fun j => if j = 3 then some 0 else none)
    { obj := fun j => if j = 0 then some ⟨20, 2, ⟨true, 0, 100, fun _ _ => (0, 0)⟩, 1⟩ else none,
      closes := fun _ => 0 }
    0 ⟨20, 2, ⟨true, 0, 100, fun _ _ => (0, 0)⟩, 1⟩
    (by decide) rfl rfl (le_refl 1)).2.2.2 rfl
  have h2 := h.1 rfl
  rw [if_neg (by norm_num)] at h2
  exact h2

/-! ## Theorems for the waitpid claim -/

/-- C7: `sys_waitpid` returns EINVAL when `options ≠ 0`; ESRCH when no
live process has the pid; ECHILD when the target's parent is not the
caller; blocks (waits on the child's wait-CV) while the target has not
exited; and once the target has exited via `sys__exit(code)` it copies
the packed status `_MKWAIT_EXIT(code & 0xff)` to user space when the
status pointer is non-null, frees the child's PID slot, and returns the
child's pid. -/
theorem sys_waitpid_spec (pid : Int) (statusNonNull : Bool) (options : Int)
    (tbl : Nat → Option ProcR) (curpid : Int) :
    (options ≠ 0 →
      sys_waitpid pid statusNonNull options 0 tbl curpid = (.ret EINVAL none, none, tbl))
    ∧ (options = 0 → proc_get tbl pid = none →
      sys_waitpid pid statusNonNull options 0 tbl curpid = (.ret ESRCH none, none, tbl))
    ∧ (∀ child, options = 0 → proc_get tbl pid = some child → child.p_parent ≠ curpid →
      sys_waitpid pid statusNonNull options 0 tbl curpid = (.ret ECHILD none, none, tbl))
    ∧ (∀ child, options = 0 → proc_get tbl pid = some child → child.p_parent = curpid →
      child.p_exited = false →
      sys_waitpid pid statusNonNull options 0 tbl curpid = (.blocked, none, tbl))
    ∧ (∀ code child, options = 0 → proc_get tbl pid = some (sys__exit code child) →
      child.p_parent = curpid →
      sys_waitpid pid statusNonNull options 0 tbl curpid
        = (.ret 0 (some pid),
           if statusNonNull then some (MKWAIT_EXIT (code % 256)) else none,
           upd tbl pid.toNat none)) := by
  refine ⟨?_, ?_, ?_, ?_, ?_⟩
  · intro hopt
    unfold sys_waitpid
    rw [if_pos hopt]
  · intro hopt hnone
    simp only [sys_waitpid, if_neg (by omega : ¬ options ≠ 0), hnone]
  · intro child hopt hsome hpar
    simp only [sys_waitpid, if_neg (by omega : ¬ options ≠ 0), hsome]
    rw [if_pos hpar]
  · intro child hopt hsome hpar hnex
    simp only [sys_waitpid, if_neg (by omega : ¬ options ≠ 0), hsome]
    rw [if_neg (by rw [hpar]; exact fun hc => hc rfl), if_pos hnex]
  · intro code child hopt hsome hpar
    simp only [sys_waitpid, if_neg (by omega : ¬ options ≠ 0), hsome]
    have hpar2 : (sys__exit code child).p_parent = curpid := hpar
    rw [if_neg (by rw [hpar2]; exact fun hc => hc rfl)]
    have hex : ¬ ((sys__exit code child).p_exited = false) := by
      simp [sys__exit]
    rw [if_neg hex]
    cases statusNonNull with
    | false => simp [sys__exit]
    | true => simp [sys__exit]

/-- Witness for C7 (spec scenario S1): pid 4's slot holds a child of
parent 3 that ran `sys__exit 7`; `waitpid(4, &st, 0)` by process 3
returns pid 4, delivers `_MKWAIT_EXIT(7) = 28`, and clears slot 4. -/
theorem sys_waitpid_spec_witness :
    sys_waitpid 4 true 0 0
      (fun j => if j = 4 then some (sys__exit 7 ⟨4, 3, 0, false⟩) else none) 3
    = (.ret 0 (some 4), some 28,
       upd (fun j => if j = 4 then some (sys__exit 7 ⟨4, 3, 0, false⟩) else none) 4 none) := by
  have h := (sys_waitpid_spec 4 true 0
      (fun j => if j = 4 then some (sys__exit 7 ⟨4, 3, 0, false⟩) else none) 3).2.2.2.2
      7 ⟨4, 3, 0, false⟩ rfl (by rfl) rfl
  simpa [MKWAIT_EXIT] using h

/-! ## Theorems for the pid-allocation claim -/

theorem pid_scan_full (p : ProcR) (fuel i : Nat) :
    pid_scan (fun _ => some p) i fuel = none := by
  induction fuel generalizing i with
  | zero => rfl
  | succ n ih => simp only [pid_scan, ih, if_neg (by simp : ¬ (some p = none))]

/-- C9: refuted on the code.  When every PID slot is occupied,
`proc_allocpid` returns the error code ENPROC as the pid and
`proc_create` does not fail: it returns a process whose `p_pid` is the
error code ENPROC = 13 — a value inside the valid user-PID range
`[PID_MIN, PID_MAX)` — instead of failing with ENPROC and registering no
process under an error value. -/
theorem proc_create_full_table_gets_errcode_pid :
    ((proc_create "test" (fun _ => some ⟨5, -1, 0, false⟩)).2.p_pid = (ENPROC : Int))
    ∧ ((proc_create "test" (fun _ => some ⟨5, -1, 0, false⟩)).1
        = (fun _ => some ⟨5, -1, 0, false⟩))
    ∧ ((PID_MIN : Int) ≤ (ENPROC : Int) ∧ (ENPROC : Int) < (PID_MAX : Int)) := by
  have hscan := pid_scan_full ⟨5, -1, 0, false⟩ (PID_MAX - PID_MIN) PID_MIN
  refine ⟨?_, ?_, by constructor <;> decide⟩
  · rw [proc_create, if_pos (by decide : ("test" : String) ≠ "[kernel]")]
    simp only [proc_allocpid, hscan]
  · rw [proc_create, if_pos (by decide : ("test" : String) ≠ "[kernel]")]
    simp only [proc_allocpid, hscan]

/-! ## Theorems for the page-fault claim -/

theorem tlb_insert_fst (va pa : Nat) (w : Bool) (st : VMState) :
    (tlb_insert va pa w st).1 = 0 := by
  unfold tlb_insert
  cases h : tlb_first_invalid st.tlb <;> rfl

theorem vm_leaf_fst (va : Nat) (w : Bool) (t : Nat → Nat) (st : VMState)
    (hf : st.freshFrames.headD 0 ≠ 0) : (vm_leaf va w t st).1 = 0 := by
  unfold vm_leaf
  by_cases h0 : t (va / 4096 % 1024) = 0
  · rw [if_pos h0, if_neg hf]
    exact tlb_insert_fst _ _ _ _
  · rw [if_neg h0]
    exact tlb_insert_fst _ _ _ _

theorem vm_walk_fst (va : Nat) (w : Bool) (st : VMState)
    (hl2 : st.l2AllocOk = true) (hf : st.freshFrames.headD 0 ≠ 0) :
    (vm_walk va w st).1 = 0 := by
  unfold vm_walk
  cases hpt : st.as.pt_l1 (va / 4194304 % 1024) with
  | none =>
    rw [if_neg (by rw [hl2]; simp)]
    exact vm_leaf_fst _ _ _ _ hf
  | some t => exact vm_leaf_fst _ _ _ _ hf

/-- C4: a fault whose page-aligned address lies in no region, nor in
`[heap_base, heap_end)`, nor in `[stack_end, stack_base)` returns EFAULT
with the whole machine state — TLB and frame supply included — exactly
as it was; a read-only-violation fault on a region whose writeable flag
is false while the loading flag is false returns EFAULT likewise; the
same fault with the loading flag true succeeds (returns 0), given the
level-2 allocation and `alloc_page` oracle succeed. -/
theorem vm_fault_spec (faulttype faultaddress : Nat) (st : VMState) :
    (region_lookup st.as.regions (faultaddress / PAGE_SIZE * PAGE_SIZE) = none →
      ¬ (st.as.heap_base ≤ faultaddress / PAGE_SIZE * PAGE_SIZE
          ∧ faultaddress / PAGE_SIZE * PAGE_SIZE < st.as.heap_end) →
      ¬ (st.as.stack_end ≤ faultaddress / PAGE_SIZE * PAGE_SIZE
          ∧ faultaddress / PAGE_SIZE * PAGE_SIZE < st.as.stack_base) →
      vm_fault faulttype faultaddress st = (EFAULT, st))
    ∧ (∀ r, region_lookup st.as.regions (faultaddress / PAGE_SIZE * PAGE_SIZE) = some r →
        r.writeable = false → st.as.loading = false →
        vm_fault VM_FAULT_READONLY faultaddress st = (EFAULT, st))
    ∧ (∀ r, region_lookup st.as.regions (faultaddress / PAGE_SIZE * PAGE_SIZE) = some r →
        st.as.loading = true → st.l2AllocOk = true → st.freshFrames.headD 0 ≠ 0 →
        (vm_fault VM_FAULT_READONLY faultaddress st).1 = 0) := by
  refine ⟨?_, ?_, ?_⟩
  · intro h1 h2 h3
    have hcls : vm_classify st.as (faultaddress / PAGE_SIZE * PAGE_SIZE) = none := by
      simp only [vm_classify, h1, if_neg h2, if_neg h3]
    simp only [vm_fault, hcls]
  · intro r hr hw hl
    have hcls : vm_classify st.as (faultaddress / PAGE_SIZE * PAGE_SIZE) = some false := by
      simp only [vm_classify, hr, hw, hl, Bool.or_false]
    simp only [vm_fault, hcls]
    rw [if_pos (by simp)]
  · intro r hr hl hl2 hf
    have hcls : vm_classify st.as (faultaddress / PAGE_SIZE * PAGE_SIZE) = some true := by
      simp only [vm_classify, hr, hl, Bool.or_true]
    simp only [vm_fault, hcls]
    rw [if_neg (by simp)]
    exact vm_walk_fst _ _ _ hl2 hf

/-- Witness for C4: a one-page read-only text region at `0x400000` in an
address space still loading; a read-only-violation (write) fault at
`0x400064` succeeds. -/
theorem vm_fault_spec_witness :
    (vm_fault VM_FAULT_READONLY 4194404
      { as := { regions := [⟨4194304, 1, true, false, true⟩], pt_l1 := fun _ => none,
                heap_base := 0, heap_end := 0, stack_base := 0, stack_end := 0,
                loading := true },
        tlb := List.replicate 64 (0, 0), freshFrames := [8192], l2AllocOk := true,
        rand := 0 }).1 = 0 := by
  exact (vm_fault_spec VM_FAULT_READONLY 4194404 _).2.2 ⟨4194304, 1, true, false, true⟩
    (by decide) rfl rfl (by decide)

/-! ## Theorems for the execv claim -/

theorem execv_after_swap_cases (env : ExecEnv) (st : ProcSt) (argc : Nat)
    (args : List String) :
    (execv_after_swap env st argc args).2 = st
    ∨ ((∃ v, (execv_after_swap env st argc args).1 = Except.ok v)
        ∧ (execv_after_swap env st argc args).2 = proc_setas_st st env.newAsId) := by
  unfold execv_after_swap
  repeat' split
  all_goals first
    | exact Or.inl rfl
    | exact Or.inr ⟨⟨_, rfl⟩, rfl⟩

theorem sys_execv_cases (env : ExecEnv) (st : ProcSt) :
    (sys_execv env st).2 = st
    ∨ ((∃ v, (sys_execv env st).1 = Except.ok v)
        ∧ (sys_execv env st).2 = proc_setas_st st env.newAsId) := by
  unfold sys_execv
  repeat' split
  all_goals first
    | exact Or.inl rfl
    | exact execv_after_swap_cases env st _ _

/-- C5: `sys_execv` is atomic on failure.  Whenever the call returns an
error — bad arguments, copy-in failure, E2BIG budget overflow, vfs_open
failure, out of memory, load_elf failure, or copyout failure while
building the user stack — the caller's address space is restored
unchanged; and regardless of outcome its file table, CWD, pid, and
parent link are untouched. -/
theorem sys_execv_failure_atomic (env : ExecEnv) (st : ProcSt) :
    (∀ e, (sys_execv env st).1 = Except.error e → (sys_execv env st).2 = st)
    ∧ (sys_execv env st).2.file_table = st.file_table
    ∧ (sys_execv env st).2.cwd = st.cwd
    ∧ (sys_execv env st).2.pid = st.pid
    ∧ (sys_execv env st).2.parent = st.parent := by
  rcases sys_execv_cases env st with hunch | ⟨⟨v, hok⟩, hswap⟩
  · exact ⟨fun _ _ => hunch, by rw [hunch], by rw [hunch], by rw [hunch], by rw [hunch]⟩
  · refine ⟨fun e herr => ?_, by rw [hswap]; rfl, by rw [hswap]; rfl,
      by rw [hswap]; rfl, by rw [hswap]; rfl⟩
    rw [hok] at herr
    cases herr

/-- Witness for C5: an env whose `load_elf` fails after the
address-space swap; the process state comes back exactly as it was. -/
theorem sys_execv_failure_atomic_witness :
    (sys_execv
      { pathNull := false, argvNull := false, copyinstrPath := Except.ok "/bin/true",
        kmallocKarg := true, copyinPtr := fun _ => Except.ok none,
        copyinByte := fun _ _ => Except.ok 0, kmallocKargv := true, kmallocBlock := true,
        copyinstrArg := fun _ => Except.ok "", vfsOpen := Except.ok (),
        asCreateOk := true, newAsId := 7, loadElf := Except.error ENOMEM,
        defineStack := Except.ok 4096, kmallocArgPtrs := true,
        copyoutStr := fun _ => 0, copyoutPtr := fun _ => 0 }
      ⟨3, 10, 11, 5, 1⟩).2 = ⟨3, 10, 11, 5, 1⟩ := by
  exact (sys_execv_failure_atomic _ _).1 ENOMEM (by rfl)

/-! ## Theorems for the coremap claim -/

theorem cmwf_replicate_free (k : Nat) : CMWf (List.replicate k ⟨true, 0⟩) := by
  induction k with
  | zero => exact CMWf.nil
  | succ n ih => exact CMWf.free ih

theorem sum_block_sizes_cons (e : CMEntry) (cm : Coremap) :
    sum_block_sizes (e :: cm) = e.block_size + sum_block_sizes cm := by
  simp [sum_block_sizes]

theorem count_allocated_cons_free (b : Nat) (cm : Coremap) :
    count_allocated (⟨true, b⟩ :: cm) = count_allocated cm := by
  simp [count_allocated, List.countP_cons]

theorem count_allocated_cons_alloc (b : Nat) (cm : Coremap) :
    count_allocated (⟨false, b⟩ :: cm) = count_allocated cm + 1 := by
  simp [count_allocated, List.countP_cons]

theorem sum_block_sizes_interior (k : Nat) (cm : Coremap) :
    sum_block_sizes (List.replicate k ⟨false, 0⟩ ++ cm) = sum_block_sizes cm := by
  induction k with
  | zero => rfl
  | succ n ih =>
    rw [List.replicate_succ, List.cons_append, sum_block_sizes_cons, ih]
    show 0 + sum_block_sizes cm = sum_block_sizes cm
    omega

theorem count_allocated_interior (k : Nat) (cm : Coremap) :
    count_allocated (List.replicate k ⟨false, 0⟩ ++ cm) = k + count_allocated cm := by
  induction k with
  | zero => simp
  | succ n ih =>
    rw [List.replicate_succ, List.cons_append, count_allocated_cons_alloc, ih]
    omega

theorem cmwf_account {cm : Coremap} (h : CMWf cm) : cm_account cm := by
  induction h with
  | nil => rfl
  | free h ih =>
    unfold cm_account at ih ⊢
    rw [sum_block_sizes_cons, count_allocated_cons_free]
    show 0 + _ = _
    omega
  | block n h ih =>
    unfold cm_account at ih ⊢
    rw [sum_block_sizes_cons, count_allocated_cons_alloc,
      sum_block_sizes_interior, count_allocated_interior]
    show (n + 1) + _ = _
    omega

theorem alloc_page_append_not_free (xs cm : Coremap)
    (hx : ∀ e ∈ xs, e.free = false) :
    (alloc_page (xs ++ cm)).1 = xs ++ (alloc_page cm).1 := by
  induction xs with
  | nil => rfl
  | cons e xs ih =>
    have he : e.free = false := hx e (List.mem_cons_self e xs)
    have hxs : ∀ a ∈ xs, a.free = false := fun a ha => hx a (List.mem_cons_of_mem e ha)
    rw [List.cons_append, alloc_page, if_neg (by rw [he]; simp)]
    show e :: (alloc_page (xs ++ cm)).1 = _
    rw [ih hxs]
    rfl

theorem replicate_interior_not_free (n : Nat) :
    ∀ e ∈ List.replicate n (⟨false, 0⟩ : CMEntry), e.free = false := by
  intro e he
  rw [List.eq_of_mem_replicate he]

theorem cmwf_alloc_page {cm : Coremap} (h : CMWf cm) : CMWf (alloc_page cm).1 := by
  induction h with
  | nil => exact CMWf.nil
  | free h ih =>
    rw [alloc_page, if_pos rfl]
    exact (by simpa using CMWf.block 0 h)
  | block n h ih =>
    rw [alloc_page, if_neg (by simp)]
    show CMWf (⟨false, n + 1⟩ :: (alloc_page (List.replicate n ⟨false, 0⟩ ++ _)).1)
    rw [alloc_page_append_not_free _ _ (replicate_interior_not_free n)]
    exact CMWf.block n ih

theorem cmwf_head_free_inv {e : CMEntry} {cm : Coremap}
    (h : CMWf (e :: cm)) (hf : e.free = true) : e = ⟨true, 0⟩ ∧ CMWf cm := by
  cases h with
  | free h2 => exact ⟨rfl, h2⟩
  | block n h2 =>
    exfalso
    exact Bool.false_ne_true hf

theorem run_free_decomp (k : Nat) :
    ∀ cm : Coremap, CMWf cm → run_free cm k = true →
      cm = List.replicate k ⟨true, 0⟩ ++ cm.drop k ∧ CMWf (cm.drop k) := by
  induction k with
  | zero =>
    intro cm hwf _
    exact ⟨by simp, by simpa using hwf⟩
  | succ n ih =>
    intro cm hwf hrun
    cases cm with
    | nil => cases hrun
    | cons e rest =>
      rw [run_free, Bool.and_eq_true] at hrun
      obtain ⟨he, hcm⟩ := cmwf_head_free_inv hwf hrun.1
      obtain ⟨hdec, hwfd⟩ := ih rest hcm hrun.2
      subst he
      constructor
      · rw [List.replicate_succ, List.cons_append, List.drop_succ_cons]
        rw [← hdec]
      · rw [List.drop_succ_cons]
        exact hwfd

theorem mark_interior_replicate (n : Nat) (tail : Coremap) :
    mark_interior n (List.replicate n ⟨true, 0⟩ ++ tail)
      = List.replicate n ⟨false, 0⟩ ++ tail := by
  induction n with
  | zero => rfl
  | succ k ih =>
    rw [List.replicate_succ, List.cons_append, mark_interior, ih, List.replicate_succ,
      List.cons_append]

theorem alloc_kpages_scan_append_not_free (n : Nat) (xs cm : Coremap)
    (hx : ∀ e ∈ xs, e.free = false) :
    (alloc_kpages_scan n (xs ++ cm)).1 = xs ++ (alloc_kpages_scan n cm).1 := by
  induction xs with
  | nil => rfl
  | cons e xs ih =>
    have he : e.free = false := hx e (List.mem_cons_self e xs)
    have hxs : ∀ a ∈ xs, a.free = false := fun a ha => hx a (List.mem_cons_of_mem e ha)
    rw [List.cons_append, alloc_kpages_scan, if_neg (by rw [he]; simp)]
    show e :: (alloc_kpages_scan n (xs ++ cm)).1 = _
    rw [ih hxs]
    rfl

theorem cmwf_alloc_kpages_scan {cm : Coremap} (h : CMWf cm) (n : Nat) :
    CMWf (alloc_kpages_scan (n + 1) cm).1 := by
  induction h with
  | nil => exact CMWf.nil
  | @free rest h ih =>
    by_cases hrun : run_free (⟨true, 0⟩ :: rest) (n + 1) = true
    · rw [alloc_kpages_scan, if_pos (by rw [hrun]; simp)]
      obtain ⟨hdec, hwfd⟩ :=
        run_free_decomp (n + 1) (⟨true, 0⟩ :: rest) (CMWf.free h) hrun
      show CMWf (mark_block (n + 1) (⟨true, 0⟩ :: rest))
      rw [hdec, List.replicate_succ, List.cons_append, mark_block]
      show CMWf (⟨false, n + 1⟩ :: mark_interior (n + 1 - 1) _)
      rw [Nat.add_sub_cancel, mark_interior_replicate]
      exact CMWf.block n (by rw [List.drop_succ_cons] at hwfd; exact hwfd)
    · rw [alloc_kpages_scan, if_neg (by simp [hrun])]
      exact CMWf.free ih
  | @block rest m h ih =>
    rw [alloc_kpages_scan, if_neg (by simp)]
    show CMWf (⟨false, m + 1⟩ :: (alloc_kpages_scan (n + 1) (List.replicate m ⟨false, 0⟩ ++ rest)).1)
    rw [alloc_kpages_scan_append_not_free _ _ _ (replicate_interior_not_free m)]
    exact CMWf.block m ih

theorem getElem?_append_right_len {α : Type} (xs ys : List α) (k : Nat) :
    (xs ++ ys)[xs.length + k]? = ys[k]? := by
  induction xs with
  | nil => simp
  | cons x xs ih =>
    simp only [List.cons_append, List.length_cons]
    rw [show xs.length + 1 + k = (xs.length + k) + 1 by omega, List.getElem?_cons_succ]
    exact ih

theorem set_append_right_len {α : Type} (xs ys : List α) (k : Nat) (v : α) :
    (xs ++ ys).set (xs.length + k) v = xs ++ ys.set k v := by
  induction xs with
  | nil => simp
  | cons x xs ih =>
    simp only [List.cons_append, List.length_cons]
    rw [show xs.length + 1 + k = (xs.length + k) + 1 by omega]
    show x :: (xs ++ ys).set (xs.length + k) v = _
    rw [ih]

theorem getElem?_replicate_append_lt {α : Type} (a : α) (tail : List α) (m k : Nat)
    (h : k < m) : (List.replicate m a ++ tail)[k]? = some a := by
  induction m generalizing k with
  | zero => omega
  | succ n ih =>
    cases k with
    | zero => simp [List.replicate_succ]
    | succ j =>
      rw [List.replicate_succ, List.cons_append, List.getElem?_cons_succ]
      exact ih j (by omega)

theorem free_page_cons_succ (e : CMEntry) (cm : Coremap) (k : Nat) :
    free_page (e :: cm) (k + 1) = (free_page cm k).map (e :: ·) := by
  cases h : cm[k]? with
  | none => simp [free_page, List.getElem?_cons_succ, h]
  | some x =>
    by_cases hx : x.block_size = 1
    · simp only [free_page, List.getElem?_cons_succ, h, if_pos hx, Option.map_some]
      rfl
    · simp [free_page, List.getElem?_cons_succ, h, hx]

theorem free_page_append (xs tail : Coremap) (j : Nat) :
    free_page (xs ++ tail) (xs.length + j) = (free_page tail j).map (xs ++ ·) := by
  cases h : tail[j]? with
  | none => simp [free_page, getElem?_append_right_len, h]
  | some x =>
    by_cases hx : x.block_size = 1
    · simp only [free_page, getElem?_append_right_len, h, if_pos hx,
        set_append_right_len]
      rfl
    · simp [free_page, getElem?_append_right_len, h, hx]

theorem free_page_interior_none (m k : Nat) (tail : Coremap) (h : k < m) :
    free_page (List.replicate m ⟨false, 0⟩ ++ tail) k = none := by
  have he := getElem?_replicate_append_lt (⟨false, 0⟩ : CMEntry) tail m k h
  simp [free_page, he]

theorem cmwf_free_page {cm : Coremap} (h : CMWf cm) :
    ∀ idx cm2, free_page cm idx = some cm2 → CMWf cm2 := by
  induction h with
  | nil =>
    intro idx cm2 h2
    simp [free_page] at h2
  | @free rest h ih =>
    intro idx cm2 h2
    cases idx with
    | zero => simp [free_page] at h2
    | succ k =>
      rw [free_page_cons_succ] at h2
      cases hr : free_page rest k with
      | none => rw [hr] at h2; cases h2
      | some r2 =>
        rw [hr] at h2
        simp only [Option.map_some', Option.some_inj] at h2
        subst h2
        exact CMWf.free (ih k r2 hr)
  | @block rest m h ih =>
    intro idx cm2 h2
    cases idx with
    | zero =>
      cases m with
      | zero =>
        simp [free_page] at h2
        subst h2
        simpa using CMWf.free h
      | succ j =>
        have hne : ¬ (j + 1 + 1 = 1) := by omega
        simp [free_page, hne] at h2
    | succ k =>
      rw [free_page_cons_succ] at h2
      by_cases hk : k < m
      · rw [free_page_interior_none m k rest hk] at h2
        cases h2
      · obtain ⟨j, rfl⟩ : ∃ j, k = m + j := ⟨k - m, by omega⟩
        rw [show m + j = (List.replicate m (⟨false, 0⟩ : CMEntry)).length + j by simp] at h2
        rw [free_page_append] at h2
        cases hr : free_page rest j with
        | none => rw [hr] at h2; cases h2
        | some r2 =>
          rw [hr] at h2
          simp only [Option.map_some', Option.some_inj] at h2
          subst h2
          exact CMWf.block m (ih j r2 hr)

theorem free_range_cons (y : CMEntry) (l : Coremap) (k n : Nat) :
    free_range (y :: l) (k + 1) n = y :: free_range l k n := by
  induction n generalizing l k y with
  | zero => rfl
  | succ m ih =>
    show free_range (y :: l.set k ⟨true, 0⟩) (k + 2) m = _
    rw [ih]
    rfl

theorem free_range_append (xs l : Coremap) (j n : Nat) :
    free_range (xs ++ l) (xs.length + j) n = xs ++ free_range l j n := by
  induction xs with
  | nil => simp
  | cons y xs ih =>
    simp only [List.cons_append, List.length_cons]
    rw [show xs.length + 1 + j = (xs.length + j) + 1 by omega, free_range_cons, ih]

theorem free_range_prefix (xs tail : Coremap) :
    free_range (xs ++ tail) 0 xs.length
      = List.replicate xs.length ⟨true, 0⟩ ++ tail := by
  induction xs with
  | nil => rfl
  | cons x xs ih =>
    simp only [List.cons_append, List.length_cons]
    show free_range (⟨true, 0⟩ :: (xs ++ tail)) 1 xs.length = _
    rw [show (1 : Nat) = 0 + 1 by rfl, free_range_cons, ih, List.replicate_succ,
      List.cons_append]

theorem free_range_getElem_outside (n : Nat) :
    ∀ (cm : Coremap) (idx j : Nat), (j < idx ∨ idx + n ≤ j) →
      (free_range cm idx n)[j]? = cm[j]? := by
  induction n with
  | zero => intro cm idx j _; rfl
  | succ m ih =>
    intro cm idx j hj
    show (free_range (cm.set idx ⟨true, 0⟩) (idx + 1) m)[j]? = _
    rw [ih _ _ _ (by omega)]
    exact List.getElem?_set_ne (by omega)

theorem free_range_getElem_inside (n : Nat) :
    ∀ (cm : Coremap) (idx j : Nat), idx ≤ j → j < idx + n → j < cm.length →
      (free_range cm idx n)[j]? = some ⟨true, 0⟩ := by
  induction n with
  | zero => intro cm idx j _ h2 _; omega
  | succ m ih =>
    intro cm idx j h1 h2 hlen
    show (free_range (cm.set idx ⟨true, 0⟩) (idx + 1) m)[j]? = _
    by_cases hj : j = idx
    · subst hj
      rw [free_range_getElem_outside m _ _ _ (Or.inl (by omega))]
      exact List.getElem?_set_self hlen
    · exact ih _ (idx + 1) j (by omega) (by omega) (by simpa using hlen)

theorem cmwf_replicate_free_append (k : Nat) {cm : Coremap} (h : CMWf cm) :
    CMWf (List.replicate k ⟨true, 0⟩ ++ cm) := by
  induction k with
  | zero => simpa using h
  | succ n ih =>
    rw [List.replicate_succ, List.cons_append]
    exact CMWf.free ih

theorem free_kpages_cons_succ (e : CMEntry) (cm : Coremap) (k : Nat) :
    free_kpages (e :: cm) (k + 1) = (free_kpages cm k).map (e :: ·) := by
  cases h : cm[k]? with
  | none => simp [free_kpages, List.getElem?_cons_succ, h]
  | some x =>
    by_cases hx : x.block_size = 0
    · simp [free_kpages, List.getElem?_cons_succ, h, hx]
    · simp only [free_kpages, List.getElem?_cons_succ, h, if_neg hx]
      rw [free_range_cons]
      rfl

theorem free_kpages_append (xs tail : Coremap) (j : Nat) :
    free_kpages (xs ++ tail) (xs.length + j) = (free_kpages tail j).map (xs ++ ·) := by
  cases h : tail[j]? with
  | none => simp [free_kpages, getElem?_append_right_len, h]
  | some x =>
    by_cases hx : x.block_size = 0
    · simp [free_kpages, getElem?_append_right_len, h, hx]
    · simp only [free_kpages, getElem?_append_right_len, h, if_neg hx]
      rw [free_range_append]
      rfl

theorem free_kpages_interior_none (m k : Nat) (tail : Coremap) (h : k < m) :
    free_kpages (List.replicate m ⟨false, 0⟩ ++ tail) k = none := by
  have he := getElem?_replicate_append_lt (⟨false, 0⟩ : CMEntry) tail m k h
  simp [free_kpages, he]

theorem cmwf_free_kpages {cm : Coremap} (h : CMWf cm) :
    ∀ idx cm2, free_kpages cm idx = some cm2 →
      CMWf cm2
      ∧ ∃ b, cm[idx]? = some ⟨false, b⟩ ∧ 1 ≤ b ∧ cm2 = free_range cm idx b
        ∧ (∀ j, idx ≤ j → j < idx + b → ∃ e, cm[j]? = some e ∧ e.free = false) := by
  induction h with
  | nil =>
    intro idx cm2 h2
    simp [free_kpages] at h2
  | @free rest h ih =>
    intro idx cm2 h2
    cases idx with
    | zero => simp [free_kpages] at h2
    | succ k =>
      rw [free_kpages_cons_succ] at h2
      cases hr : free_kpages rest k with
      | none => rw [hr] at h2; cases h2
      | some r2 =>
        rw [hr] at h2
        simp only [Option.map_some', Option.some_inj] at h2
        subst h2
        obtain ⟨hwf2, b, hb1, hb2, hb3, hb4⟩ := ih k r2 hr
        refine ⟨CMWf.free hwf2, b, ?_, hb2, ?_, ?_⟩
        · rw [List.getElem?_cons_succ]; exact hb1
        · rw [free_range_cons, ← hb3]
        · intro j hj1 hj2
          obtain ⟨j2, rfl⟩ : ∃ j2, j = j2 + 1 := ⟨j - 1, by omega⟩
          rw [List.getElem?_cons_succ]
          exact hb4 j2 (by omega) (by omega)
  | @block rest m h ih =>
    intro idx cm2 h2
    cases idx with
    | zero =>
      have heq : free_kpages (⟨false, m + 1⟩ :: (List.replicate m ⟨false, 0⟩ ++ rest)) 0
          = some (free_range (⟨false, m + 1⟩ :: (List.replicate m ⟨false, 0⟩ ++ rest)) 0 (m + 1)) := by
        simp [free_kpages]
      rw [heq] at h2
      simp only [Option.some_inj] at h2
      subst h2
      have hpre : free_range (⟨false, m + 1⟩ :: (List.replicate m ⟨false, 0⟩ ++ rest)) 0 (m + 1)
          = List.replicate (m + 1) ⟨true, 0⟩ ++ rest := by
        have := free_range_prefix (⟨false, m + 1⟩ :: List.replicate m ⟨false, 0⟩) rest
        simpa using this
      refine ⟨?_, m + 1, by simp, by omega, rfl, ?_⟩
      · rw [hpre]; exact cmwf_replicate_free_append (m + 1) h
      · intro j hj1 hj2
        cases j with
        | zero => exact ⟨⟨false, m + 1⟩, by simp, rfl⟩
        | succ j2 =>
          refine ⟨⟨false, 0⟩, ?_, rfl⟩
          rw [List.getElem?_cons_succ]
          exact getElem?_replicate_append_lt _ _ _ _ (by omega)
    | succ k =>
      rw [free_kpages_cons_succ] at h2
      by_cases hk : k < m
      · rw [free_kpages_interior_none m k rest hk] at h2
        cases h2
      · obtain ⟨j, rfl⟩ : ∃ j, k = m + j := ⟨k - m, by omega⟩
        rw [show m + j = (List.replicate m (⟨false, 0⟩ : CMEntry)).length + j by simp] at h2
        rw [free_kpages_append] at h2
        cases hr : free_kpages rest j with
        | none => rw [hr] at h2; cases h2
        | some r2 =>
          rw [hr] at h2
          simp only [Option.map_some', Option.some_inj] at h2
          subst h2
          obtain ⟨hwf2, b, hb1, hb2, hb3, hb4⟩ := ih j r2 hr
          refine ⟨CMWf.block m hwf2, b, ?_, hb2, ?_, ?_⟩
          · rw [List.getElem?_cons_succ,
              show m + j = (List.replicate m (⟨false, 0⟩ : CMEntry)).length + j by simp,
              getElem?_append_right_len]
            exact hb1
          · rw [show (m + j) + 1 = (List.replicate m (⟨false, 0⟩ : CMEntry)).length + j + 1 by simp]
            rw [free_range_cons, free_range_append, ← hb3]
          · intro j2 hj1 hj2
            obtain ⟨t, rfl⟩ : ∃ t, j2 = (m + t) + 1 := ⟨j2 - m - 1, by omega⟩
            rw [List.getElem?_cons_succ,
              show m + t = (List.replicate m (⟨false, 0⟩ : CMEntry)).length + t by simp,
              getElem?_append_right_len]
            exact hb4 t (by omega) (by omega)

theorem cmstep_wf {cm cm2 : Coremap} (hstep : CMStep cm cm2) (hwf : CMWf cm) :
    CMWf cm2 := by
  cases hstep with
  | alloc_page => exact cmwf_alloc_page hwf
  | alloc_kpages n hn =>
    obtain ⟨k, rfl⟩ : ∃ k, n = k + 1 := ⟨n - 1, by omega⟩
    exact cmwf_alloc_kpages_scan hwf k
  | free_page c2 idx h2 => exact cmwf_free_page hwf idx _ h2
  | free_kpages c2 idx h2 => exact (cmwf_free_kpages hwf idx _ h2).1

theorem cmreachable_wf (N : Nat) (cm : Coremap) (h : CMReachable N cm) : CMWf cm := by
  induction h with
  | refl => exact cmwf_replicate_free N
  | tail hsteps hstep ih => exact cmstep_wf hstep ih

/-- C3, amended: after every allocator operation — `alloc_page`,
`alloc_kpages(n)` for every **n ≥ 1**, `free_page`, `free_kpages` —
applied to any reachable coremap state, the sum of `block_size` over
the head frames of live allocations equals the number of entries with
`free == false` (the invariant also holds of the reachable state
itself); and `free_kpages` frees exactly `block_size` consecutive
frames starting at the head frame: those frames were allocated and
become free, every other frame is untouched.  (The claim's `n = 0` case
is false: see the counterexample.) -/
theorem coremap_accounting (N : Nat) (cm : Coremap) (h : CMReachable N cm) :
    cm_account cm
    ∧ cm_account (alloc_page cm).1
    ∧ (∀ n, 1 ≤ n → cm_account (alloc_kpages_scan n cm).1)
    ∧ (∀ idx cm2, free_page cm idx = some cm2 → cm_account cm2)
    ∧ (∀ idx cm2, free_kpages cm idx = some cm2 →
        cm_account cm2
        ∧ ∃ b, cm[idx]? = some ⟨false, b⟩ ∧ 1 ≤ b
          ∧ (∀ j, idx ≤ j → j < idx + b →
              cm2[j]? = some ⟨true, 0⟩ ∧ ∃ e, cm[j]? = some e ∧ e.free = false)
          ∧ (∀ j, j < idx ∨ idx + b ≤ j → cm2[j]? = cm[j]?)) := by
  have hwf : CMWf cm := cmreachable_wf N cm h
  refine ⟨cmwf_account hwf, cmwf_account (cmwf_alloc_page hwf), ?_, ?_, ?_⟩
  · intro n hn
    obtain ⟨k, rfl⟩ : ∃ k, n = k + 1 := ⟨n - 1, by omega⟩
    exact cmwf_account (cmwf_alloc_kpages_scan hwf k)
  · intro idx cm2 h2
    exact cmwf_account (cmwf_free_page hwf idx cm2 h2)
  · intro idx cm2 h2
    obtain ⟨hwf2, b, hb1, hb2, hb3, hb4⟩ := cmwf_free_kpages hwf idx cm2 h2
    refine ⟨cmwf_account hwf2, b, hb1, hb2, ?_, ?_⟩
    · intro j hj1 hj2
      obtain ⟨e, he, hef⟩ := hb4 j hj1 hj2
      have hlen : j < cm.length := (List.getElem?_eq_some.mp he).1
      refine ⟨?_, e, he, hef⟩
      rw [hb3]
      exact free_range_getElem_inside b cm idx j hj1 hj2 hlen
    · intro j hj
      rw [hb3]
      exact free_range_getElem_outside b cm idx j hj

/-- Counterexample to C3 as stated (`alloc_kpages(n)` for every
`n ≥ 0`): on the reachable one-frame coremap, `alloc_kpages(0)` marks
the frame `{free := false, block_size := 0}`, so the head block sizes
sum to 0 while one frame is non-free. -/
theorem coremap_accounting_fails_at_zero :
    CMReachable 1 [⟨true, 0⟩]
    ∧ ¬ cm_account (alloc_kpages_scan 0 [⟨true, 0⟩]).1 := by
  constructor
  · exact Relation.ReflTransGen.refl
  · unfold cm_account
    decide

/-- Witness for C3 at a concrete reachable state: the fresh two-frame
map; both `alloc_page` and `alloc_kpages(2)` keep the accounting
invariant. -/
theorem coremap_accounting_witness :
    CMReachable 2 (List.replicate 2 ⟨true, 0⟩)
    ∧ cm_account (alloc_page (List.replicate 2 ⟨true, 0⟩)).1
    ∧ cm_account (alloc_kpages_scan 2 (List.replicate 2 ⟨true, 0⟩)).1 := by
  have h := coremap_accounting 2 (List.replicate 2 ⟨true, 0⟩) Relation.ReflTransGen.refl
  exact ⟨Relation.ReflTransGen.refl, h.2.1, h.2.2.1 2 (by omega)⟩

end OS161
